import Mathlib

/-!
Verification of the concurrent Wa-Tor simulation engine
(`src/concurrent/concurrent.go`).

The Go code is shallowly embedded as executable Lean definitions:

* `square` mirrors the Go `square` struct (`typeId`, `energy`, `breedTimer`);
  the integer fields that can go negative (`energy`, `breedTimer`) are `Int`,
  the type tag (only ever 0, 1, 2) is `Nat`.
* Grids and the write buffer are `List (List square)` indexed `[x][y]`, with
  `getCell`/`setCell` as the access primitives (out-of-range reads give the Go
  zero value, out-of-range writes are dropped — coordinates are always wrapped
  into range by the callers, exactly as in the Go code).
* The global configuration variables (`width`, `height`, `fishBreed`,
  `sharkBreed`, `starve`, `energyGain`) become a `Config` record; the source's
  concrete values are recorded as `widthC` etc. below.
* `math/rand.IntN n` becomes an injected entropy stream (`List Nat`); each
  draw consumes one element `r` of the stream and yields `r % n`, which ranges
  over `[0, n)` exactly as `rand.IntN` does.
* The per-step goroutines are sequentialized: each worker scans its own tile
  in program order and all writes go through `SafeWrite`, whose arbitration is
  identical with and without the lock, so the sequentialization realizes one
  admissible interleaving of the concurrent step.
* Write attempts are additionally recorded in a trace (newest first) so that
  "the code issues a write" is directly statable; the trace has no effect on
  the buffer contents.
-/

namespace Wator

/-- Mirror of the Go `square` struct: `typeId` 0 = empty, 1 = fish, 2 = shark;
`energy` is shark energy; `breedTimer` counts down to breeding. -/
structure square where
  typeId : Nat
  energy : Int
  breedTimer : Int
deriving DecidableEq, Repr

/-- The Go zero value of `square`. -/
def zeroSquare : square := ⟨0, 0, 0⟩

instance : Inhabited square := ⟨zeroSquare⟩

/-- Grids and buffers: `[width][height]square`, indexed `g[x][y]`. -/
abbrev Grid := List (List square)

/-- Read `g[x][y]`; out of range gives the zero value (callers always wrap
coordinates into range first, as in the Go source). -/
def getCell (g : Grid) (x y : Nat) : square :=
  (g.getD x []).getD y zeroSquare

/-- Write `g[x][y] := sq`; out of range is a no-op. -/
def setCell (g : Grid) (x y : Nat) (sq : square) : Grid :=
  g.set x ((g.getD x []).set y sq)

/-- An all-Empty `width × height` buffer (`buffer = [width][height]square{}`). -/
def zeroBuffer (width height : Nat) : Grid :=
  List.replicate width (List.replicate height zeroSquare)

/-- The global simulation parameters of the Go file
(`width`, `height`, `fishBreed`, `sharkBreed`, `starve`, `energyGain`). -/
structure Config where
  width : Nat
  height : Nat
  fishBreed : Int
  sharkBreed : Int
  starve : Int
  energyGain : Int
deriving Repr

/-- Source constant `width = 1800`. -/
def widthC : Nat := 1800

/-- Source constant `threads = 8`. -/
def threadsC : Nat := 8

/-- Source global `tileWidth = width / threads`. -/
def tileWidthC : Nat := widthC / threadsC

/-- `GatherFreeSquares`: the orthogonal neighbors of `(x, y)` whose grid cell
is empty, in source order up, left, right, down.  Go computes
`(x - 1 + width) % width`; for natural `x` this equals `(x + width - 1) % width`,
which is the form used here. -/
def GatherFreeSquares (cfg : Config) (grid : Grid) (x y : Nat) : List (Nat × Nat) :=
  let leftX := (x + cfg.width - 1) % cfg.width
  let rightX := (x + 1) % cfg.width
  let upY := (y + cfg.height - 1) % cfg.height
  let downY := (y + 1) % cfg.height
  (if (getCell grid x upY).typeId = 0 then [(x, upY)] else []) ++
  (if (getCell grid leftX y).typeId = 0 then [(leftX, y)] else []) ++
  (if (getCell grid rightX y).typeId = 0 then [(rightX, y)] else []) ++
  (if (getCell grid x downY).typeId = 0 then [(x, downY)] else [])

/-- `GatherFishSquares`: the orthogonal neighbors of `(x, y)` whose grid cell
holds a fish, in source order up, left, right, down. -/
def GatherFishSquares (cfg : Config) (grid : Grid) (x y : Nat) : List (Nat × Nat) :=
  let leftX := (x + cfg.width - 1) % cfg.width
  let rightX := (x + 1) % cfg.width
  let upY := (y + cfg.height - 1) % cfg.height
  let downY := (y + 1) % cfg.height
  (if (getCell grid x upY).typeId = 1 then [(x, upY)] else []) ++
  (if (getCell grid leftX y).typeId = 1 then [(leftX, y)] else []) ++
  (if (getCell grid rightX y).typeId = 1 then [(rightX, y)] else []) ++
  (if (getCell grid x downY).typeId = 1 then [(x, downY)] else [])

/-- Loop body of `TileOfX`: scan `i = 0, 1, ...` while `i < len(starts) - 1`,
returning the first `i` with `starts[i] <= x < starts[i+1]`; the fuel is the
number of loop iterations remaining. -/
def TileOfXGo (x : Nat) (starts : List Nat) : Nat → Nat → Nat
  | 0, _ => starts.length - 1
  | fuel + 1, i =>
    if starts.getD i 0 ≤ x ∧ x < starts.getD (i + 1) 0 then i
    else TileOfXGo x starts fuel (i + 1)

/-- `TileOfX`: which tile the x value lies on; falls through to
`len(starts) - 1` when no interval matches. -/
def TileOfX (x : Nat) (starts : List Nat) : Nat :=
  TileOfXGo x starts (starts.length - 1) 0

/-- Loop of `GetTileStarts`: `starts[i] = position`, then `position += add`
where `add = tileWidth`, plus the remainder on the last tile; after the loop
`starts[threads] = position`. -/
def GetTileStartsGo (tileWidth remainingWidth threads : Nat) : Nat → Nat → Nat → List Nat
  | 0, _, position => [position]
  | fuel + 1, i, position =>
    position :: GetTileStartsGo tileWidth remainingWidth threads fuel (i + 1)
      (position + (if i = threads - 1 then tileWidth + remainingWidth else tileWidth))

/-- `GetTileStarts`: the tile boundary columns.  The Go function reads the
package globals `width` and `tileWidth` (note: *not* `width / threads` for its
own `threads` argument), which appear here as explicit parameters. -/
def GetTileStarts (width tileWidth : Nat) (threads : Nat) : List Nat :=
  GetTileStartsGo tileWidth (width % threads) threads threads 0 0

/-- The boundary list actually used by the program:
`GetTileStarts(threads)` with the source globals. -/
def startsC : List Nat := GetTileStarts widthC tileWidthC threadsC

/-- `SafeWrite`: arbitrated write of `sq` into the buffer at `(x, y)`.
The Go function takes the target tile's lock when `targetTile ≠ workerTile`
and then runs the *same* arbitration as the lock-free intra-tile branch; the
lock has no effect on the sequential state, so the two branches below differ
only in the (modelled) locking. Returns `(accepted, new buffer)`. -/
def SafeWrite (x y : Nat) (sq : square) (workerTile : Nat) (starts : List Nat)
    (buf : Grid) : Bool × Grid :=
  let targetTile := TileOfX x starts
  if targetTile = workerTile then
    -- intra-tile: no lock
    let existing := getCell buf x y
    if existing.typeId = 0 then (true, setCell buf x y sq)
    else if existing.typeId = 1 ∧ sq.typeId = 2 then (true, setCell buf x y sq)
    else if existing.typeId = 2 ∧ sq.typeId = 0 then (true, setCell buf x y sq)
    else (false, buf)
  else
    -- cross-tile: performed under tileLocks[targetTile]
    let existing := getCell buf x y
    if existing.typeId = 0 then (true, setCell buf x y sq)
    else if existing.typeId = 1 ∧ sq.typeId = 2 then (true, setCell buf x y sq)
    else if existing.typeId = 2 ∧ sq.typeId = 0 then (true, setCell buf x y sq)
    else (false, buf)

/-- Mutable state threaded through a step: the write buffer, the remaining
entropy stream, and a trace of the issued write attempts (newest first). -/
structure SimState where
  buf : Grid
  rnd : List Nat
  trace : List (Nat × Nat × square)
deriving Repr

/-- `SafeWrite` lifted to `SimState`; records the attempt in the trace. -/
def SafeWriteT (x y : Nat) (sq : square) (workerTile : Nat) (starts : List Nat)
    (s : SimState) : Bool × SimState :=
  let r := SafeWrite x y sq workerTile starts s.buf
  (r.1, ⟨r.2, s.rnd, (x, y, sq) :: s.trace⟩)

/-- `rand.IntN n`: consume one entropy value `r` and return `r % n ∈ [0, n)`.
(The call sites all have `n > 0`, as `rand.IntN` requires.) -/
def randIntN (n : Nat) (s : SimState) : Nat × SimState :=
  match s.rnd with
  | [] => (0, s)
  | r :: rest => (r % n, ⟨s.buf, rest, s.trace⟩)

/-- `UpdateFish`: move to a random free neighbor (falling back to staying put
when the move is rejected or no neighbor is free), then breed when the
pre-decrement breed timer is `≤ 0`. -/
def UpdateFish (cfg : Config) (grid : Grid) (starts : List Nat)
    (worker x y : Nat) (s : SimState) : SimState :=
  let currentSquare := getCell grid x y
  if currentSquare.typeId ≠ 1 then s else
  let freeSquares := GatherFreeSquares cfg grid x y
  let move :=
    if freeSquares.length > 0 then
      let d := randIntN freeSquares.length s
      let c := freeSquares.getD d.1 (0, 0)
      let w := SafeWriteT c.1 c.2 ⟨1, 0, currentSquare.breedTimer - 1⟩ worker starts d.2
      if w.1 then (c.1, c.2, w.2)
      else
        (x, y, (SafeWriteT x y ⟨1, 0, currentSquare.breedTimer - 1⟩ worker starts w.2).2)
    else
      (x, y, (SafeWriteT x y ⟨1, 0, currentSquare.breedTimer - 1⟩ worker starts s).2)
  let newX := move.1
  let newY := move.2.1
  let s := move.2.2
  if currentSquare.breedTimer ≤ 0 then
    let s := (SafeWriteT x y ⟨1, 0, cfg.fishBreed⟩ worker starts s).2
    (SafeWriteT newX newY ⟨1, 0, cfg.fishBreed⟩ worker starts s).2
  else s

/-- Movement phase of `UpdateSharks` (source lines 276–315): eat a random
adjacent fish, otherwise move to a random free neighbor, otherwise stay.
Returns `(newX, newY, energyAfterMove, moved, state)`.
Note: in the rejected-predation branch the Go code does *not* reset
`newX, newY` to `(x, y)`; this embedding reproduces that faithfully. -/
def SharkMove (cfg : Config) (grid : Grid) (starts : List Nat)
    (worker x y : Nat) (currentSquare : square) (s : SimState) :
    Nat × Nat × Int × Bool × SimState :=
  let freeSquares := GatherFreeSquares cfg grid x y
  let fishSquares := GatherFishSquares cfg grid x y
  let energyAfterMove := currentSquare.energy - 1
  if fishSquares.length > 0 then
    let d := randIntN fishSquares.length s
    let c := fishSquares.getD d.1 (0, 0)
    let w := SafeWriteT c.1 c.2 ⟨2, energyAfterMove + cfg.energyGain, currentSquare.breedTimer - 1⟩
      worker starts d.2
    if w.1 then (c.1, c.2, energyAfterMove + cfg.energyGain, true, w.2)
    else
      -- fallback: stay put, no meal (newX, newY are left at the fish square)
      (c.1, c.2, energyAfterMove, false,
        (SafeWriteT x y ⟨2, energyAfterMove, currentSquare.breedTimer - 1⟩ worker starts w.2).2)
  else if freeSquares.length > 0 then
    let d := randIntN freeSquares.length s
    let c := freeSquares.getD d.1 (0, 0)
    let w := SafeWriteT c.1 c.2 ⟨2, energyAfterMove, currentSquare.breedTimer - 1⟩
      worker starts d.2
    if w.1 then (c.1, c.2, energyAfterMove, true, w.2)
    else (x, y, energyAfterMove, false, w.2)
  else (x, y, energyAfterMove, false, s)

/-- Post-move phase of `UpdateSharks` (source lines 316–343): the `!moved`
re-write, then starvation, then breeding. -/
def SharkFinish (cfg : Config) (starts : List Nat) (worker x y : Nat)
    (currentSquare : square) : Nat × Nat × Int × Bool × SimState → SimState
  | (newX, newY, energyAfterMove, moved, s) =>
    let s :=
      if moved then s
      else (SafeWriteT newX newY ⟨2, energyAfterMove, currentSquare.breedTimer - 1⟩ worker starts s).2
    if energyAfterMove ≤ 0 then
      (SafeWriteT newX newY ⟨0, 0, 0⟩ worker starts s).2
    else if currentSquare.breedTimer ≤ 0 then
      let s := (SafeWriteT newX newY ⟨2, energyAfterMove, cfg.sharkBreed⟩ worker starts s).2
      (SafeWriteT x y ⟨2, cfg.starve, cfg.sharkBreed⟩ worker starts s).2
    else s

/-- `UpdateSharks`: eat a random adjacent fish (keeping the energy gain only
when the predation write is accepted), otherwise move to a random free
neighbor, otherwise stay; then starve when the resulting energy is `≤ 0`,
otherwise breed when the pre-decrement breed timer is `≤ 0`. -/
def UpdateSharks (cfg : Config) (grid : Grid) (starts : List Nat)
    (worker x y : Nat) (s : SimState) : SimState :=
  let currentSquare := getCell grid x y
  if currentSquare.typeId ≠ 2 then s
  else SharkFinish cfg starts worker x y currentSquare
    (SharkMove cfg grid starts worker x y currentSquare s)

/-- `ConcurrentUpdate`: one worker's scan of its tile `[startX, endX)`,
column by column, top to bottom, dispatching on the snapshot grid's cell type. -/
def ConcurrentUpdate (cfg : Config) (grid : Grid) (starts : List Nat)
    (worker startX endX : Nat) (s : SimState) : SimState :=
  (List.range' startX (endX - startX)).foldl (fun s x =>
    (List.range cfg.height).foldl (fun s y =>
      if (getCell grid x y).typeId = 1 then UpdateFish cfg grid starts worker x y s
      else if (getCell grid x y).typeId = 2 then UpdateSharks cfg grid starts worker x y s
      else s) s) s

/-- `Update`: one full simulation step.  Workers run over their tiles (here in
tile order, realizing one admissible interleaving), then the buffer becomes
the new grid and the buffer is re-zeroed; the function returns the new grid. -/
def Update (cfg : Config) (threads tileWidth : Nat) (grid : Grid)
    (rnd : List Nat) : Grid :=
  let starts := GetTileStarts cfg.width tileWidth threads
  let s0 : SimState := ⟨zeroBuffer cfg.width cfg.height, rnd, []⟩
  let s := (List.range threads).foldl (fun s worker =>
    let startX := starts.getD worker 0
    let endX0 := starts.getD (worker + 1) 0
    let endX := if endX0 > cfg.width then cfg.width else endX0
    ConcurrentUpdate cfg grid starts worker startX endX s) s0
  s.buf

/-- Fish placement loop of `RunConcurrent`: for `count` shuffled coordinates
starting at index `i`, set `typeId = 1` and `breedTimer = fishBreed` (the
other fields are left as read).  An out-of-range index — the Go panic when
`numFish + numShark > width*height` — aborts with `none`. -/
def placeFishLoop (cfg : Config) (coords : List (Nat × Nat)) :
    Nat → Nat → Grid → Option Grid
  | _, 0, g => some g
  | i, count + 1, g =>
    match coords.get? i with
    | none => none
    | some c =>
      let old := getCell g c.1 c.2
      placeFishLoop cfg coords (i + 1) count
        (setCell g c.1 c.2 { old with typeId := 1, breedTimer := cfg.fishBreed })

/-- Shark placement loop of `RunConcurrent`: `typeId = 2`,
`breedTimer = sharkBreed`, `energy = starve`. -/
def placeSharkLoop (cfg : Config) (coords : List (Nat × Nat)) :
    Nat → Nat → Grid → Option Grid
  | _, 0, g => some g
  | i, count + 1, g =>
    match coords.get? i with
    | none => none
    | some c =>
      let old := getCell g c.1 c.2
      placeSharkLoop cfg coords (i + 1) count
        (setCell g c.1 c.2 { old with typeId := 2, breedTimer := cfg.sharkBreed, energy := cfg.starve })

/-- The coordinate list `RunConcurrent` builds before shuffling:
all `(x, y)` in x-major order. -/
def allCoords (width height : Nat) : List (Nat × Nat) :=
  (List.range width).flatMap (fun x => (List.range height).map (fun y => (x, y)))

/-- Initialization part of `RunConcurrent`: place `numFish` fish on the first
shuffled coordinates and `numShark` sharks on the next ones, over the zero
grid.  `coords` is the shuffled coordinate list (`rand.Shuffle` is modelled as
an arbitrary permutation of `allCoords`, supplied by the caller). -/
def RunConcurrentInit (cfg : Config) (coords : List (Nat × Nat))
    (numFish numShark : Nat) : Option Grid :=
  match placeFishLoop cfg coords 0 numFish (zeroBuffer cfg.width cfg.height) with
  | none => none
  | some g => placeSharkLoop cfg coords numFish numShark g

/-- Number of cells of type `t` in a grid. -/
def countType (t : Nat) (g : Grid) : Nat :=
  (g.map (fun row => row.countP (fun sq => sq.typeId == t))).sum

/-- Shape invariant: `W` columns of `H` cells each. -/
def Shaped (W H : Nat) (g : Grid) : Prop :=
  g.length = W ∧ ∀ row ∈ g, row.length = H

/-- Every cell's `typeId` is one of 0 (Empty), 1 (Fish), 2 (Shark). -/
def WellTyped (g : Grid) : Prop :=
  ∀ row ∈ g, ∀ sq ∈ row, sq.typeId = 0 ∨ sq.typeId = 1 ∨ sq.typeId = 2

/-! ### Concrete test fixtures (3×3 toroidal grid, source rule constants) -/

/-- 3×3 grid with the source's rule constants
(`fishBreed = 5`, `sharkBreed = 10`, `starve = 4`, `energyGain = 2`). -/
def cfg3 : Config := ⟨3, 3, 5, 10, 4, 2⟩

/-- 3×3 grid, single fish at `(1,1)` with `breedTimer = 1`, all else empty. -/
def fishGrid1 : Grid := setCell (zeroBuffer 3 3) 1 1 ⟨1, 0, 1⟩

/-- 3×3 grid, single fish at `(1,1)` with `breedTimer = 0`, all else empty. -/
def fishGrid0 : Grid := setCell (zeroBuffer 3 3) 1 1 ⟨1, 0, 0⟩

/-- 3×3 grid: fish at `(1,1)`, shark `(0,1)` (energy 5), shark `(2,1)`
(energy 1), all breed timers high.  Scanning order processes `(0,1)` first,
which eats the fish; the shark at `(2,1)` then has its predation write
rejected. -/
def sharkBugGrid : Grid :=
  setCell (setCell (setCell (zeroBuffer 3 3) 1 1 ⟨1, 0, 9⟩) 0 1 ⟨2, 5, 10⟩) 2 1 ⟨2, 1, 10⟩

/-- 3×3 grid: fish at `(1,1)`, rival shark at `(0,1)` (energy 5, high breed
timer), breeding shark at `(2,1)` with energy 10 and `breedTimer = 0`.  The
rival is scanned first and eats the fish, so the breeding shark's predation
write is rejected and it stays put. -/
def sharkBreedGrid : Grid :=
  setCell (setCell (setCell (zeroBuffer 3 3) 1 1 ⟨1, 0, 9⟩) 0 1 ⟨2, 5, 10⟩) 2 1 ⟨2, 10, 0⟩

/-- Mid-step buffer for `sharkBreedGrid` as seen by the shark at `(2,1)`:
the rival shark has already claimed the fish square `(1,1)`. -/
def sharkBreedBuf : Grid := setCell (zeroBuffer 3 3) 1 1 ⟨2, 6, 9⟩

/-! ### Cell access lemmas -/

/-- Writing one cell leaves every other cell unchanged. -/
theorem getCell_setCell_ne (g : Grid) (x y a b : Nat) (sq : square)
    (h : ¬(a = x ∧ b = y)) :
    getCell (setCell g x y sq) a b = getCell g a b := by
  unfold getCell setCell
  simp only [List.getD_eq_getElem?_getD]
  by_cases hax : a = x
  · subst hax
    have hby : b ≠ y := fun hh => h ⟨rfl, hh⟩
    rw [List.getElem?_set_self']
    cases hga : g[a]? with
    | none => rfl
    | some row =>
      simp only [Option.map_eq_map, Option.map_some', Option.getD_some,
        Function.const_apply]
      rw [List.getElem?_set_ne (Ne.symm hby)]
  · rw [List.getElem?_set_ne (fun hh => hax hh.symm)]

/-- Every coordinate gathered by `GatherFishSquares` holds a fish in the
grid snapshot. -/
theorem GatherFishSquares_typeId (cfg : Config) (grid : Grid) (x y : Nat) :
    ∀ c ∈ GatherFishSquares cfg grid x y, (getCell grid c.1 c.2).typeId = 1 := by
  intro c hc
  unfold GatherFishSquares at hc
  simp only [List.mem_append] at hc
  rcases hc with ((h | h) | h) | h <;> (split at h <;> simp_all)

/-! ### The Synchronized Cell Writer (claims C1, C10) -/

/-- Both branches of `SafeWrite` (with and without the lock) run the same
arbitration, so the call reduces to one conditional on the existing cell. -/
theorem SafeWrite_eq (x y : Nat) (sq : square) (workerTile : Nat)
    (starts : List Nat) (buf : Grid) :
    SafeWrite x y sq workerTile starts buf =
      (if (getCell buf x y).typeId = 0 ∨
          ((getCell buf x y).typeId = 1 ∧ sq.typeId = 2) ∨
          ((getCell buf x y).typeId = 2 ∧ sq.typeId = 0)
       then (true, setCell buf x y sq) else (false, buf)) := by
  unfold SafeWrite
  dsimp only
  by_cases h0 : (getCell buf x y).typeId = 0
  · by_cases ht : TileOfX x starts = workerTile <;> simp [ht, h0]
  · by_cases h1 : (getCell buf x y).typeId = 1 ∧ sq.typeId = 2
    · by_cases ht : TileOfX x starts = workerTile <;> simp [ht, h0, h1]
    · by_cases h2 : (getCell buf x y).typeId = 2 ∧ sq.typeId = 0
      · by_cases ht : TileOfX x starts = workerTile <;>
          simp [ht, h0, h1, h2]
      · by_cases ht : TileOfX x starts = workerTile <;>
          simp [ht, h0, h1, h2]

/-- A rejected write returns the buffer unchanged (helper form). -/
theorem SafeWrite_false_eq (x y : Nat) (sq : square) (workerTile : Nat)
    (starts : List Nat) (buf : Grid)
    (h : (SafeWrite x y sq workerTile starts buf).1 = false) :
    (SafeWrite x y sq workerTile starts buf).2 = buf := by
  rw [SafeWrite_eq] at h ⊢
  split at h
  next hc => simp at h
  next hc => rw [if_neg hc]

/-- C1: `SafeWrite` accepts the write (returning `true` and storing the
incoming cell at `buffer[x][y]`) exactly when the existing buffer cell is
Empty, or the existing cell is Fish and the incoming cell is Shark, or the
existing cell is Shark and the incoming cell is Empty; in all other pairs it
returns `false`; and the arbitration is the same for every owner tile, i.e.
whether the write is intra-tile (no lock) or cross-tile (under the target
tile's lock). -/
theorem SafeWrite_arbitration (x y : Nat) (sq : square) (workerTile : Nat)
    (starts : List Nat) (buf : Grid) :
    ((SafeWrite x y sq workerTile starts buf).1 = true ↔
      ((getCell buf x y).typeId = 0 ∨
       ((getCell buf x y).typeId = 1 ∧ sq.typeId = 2) ∨
       ((getCell buf x y).typeId = 2 ∧ sq.typeId = 0))) ∧
    ((SafeWrite x y sq workerTile starts buf).1 = true →
      (SafeWrite x y sq workerTile starts buf).2 = setCell buf x y sq) ∧
    (∀ workerTile2,
      SafeWrite x y sq workerTile2 starts buf = SafeWrite x y sq workerTile starts buf) := by
  refine ⟨?_, ?_, ?_⟩
  · rw [SafeWrite_eq]; split
    next hc => simp [hc]
    next hc => simp [hc]
  · rw [SafeWrite_eq]; split
    next hc => intro; rfl
    next hc => intro h; simp at h
  · intro workerTile2; rw [SafeWrite_eq, SafeWrite_eq]

/-- C10: a rejected `SafeWrite` leaves the buffer completely unchanged. -/
theorem SafeWrite_rejected_unchanged (x y : Nat) (sq : square) (workerTile : Nat)
    (starts : List Nat) (buf : Grid)
    (h : (SafeWrite x y sq workerTile starts buf).1 = false) :
    (SafeWrite x y sq workerTile starts buf).2 = buf := by
  rw [SafeWrite_eq] at h ⊢
  split at h
  next hc => simp at h
  next hc => rw [if_neg hc]

/-- Concrete instance of C10: a Fish-over-Fish write is rejected and the
buffer is unchanged. -/
theorem SafeWrite_rejected_unchanged_witness :
    (SafeWrite 1 1 ⟨1, 0, 3⟩ 0 [0, 3] fishGrid1).2 = fishGrid1 :=
  SafeWrite_rejected_unchanged 1 1 ⟨1, 0, 3⟩ 0 [0, 3] fishGrid1 (by decide)

/-! ### Fish breeding after one step (claim C2) -/

/-- C2 fails on the code: a lone fish with `breedTimer = 1` does *not* breed
in one step (breeding tests the pre-decrement timer `<= 0`), so the step
produces exactly one fish, not two. -/
theorem fish_breed_timer_one_counterexample :
    countType 1 (Update cfg3 1 3 fishGrid1 [0]) = 1 ∧
    countType 1 (Update cfg3 1 3 fishGrid1 [0]) ≠ 2 := by
  constructor <;> decide

/-- C2 amended: a lone fish at `(1,1)` whose *pre-decrement* breed timer is
`0` produces, for every choice `r` of the random free neighbor, exactly two
fish after one step: the fish re-placed at the original `(1,1)` has
`breedTimer = fishBreed`, while the moved fish at the chosen destination keeps
`breedTimer = -1` — its reset write is rejected by the Fish-over-Fish
arbitration. -/
theorem fish_breed_timer_zero_step (r : Nat) (h : r < 4) :
    countType 1 (Update cfg3 1 3 fishGrid0 [r]) = 2 ∧
    getCell (Update cfg3 1 3 fishGrid0 [r]) 1 1 = ⟨1, 0, 5⟩ ∧
    getCell (Update cfg3 1 3 fishGrid0 [r])
        ([(1, 0), (0, 1), (2, 1), (1, 2)].getD r (0, 0)).1
        ([(1, 0), (0, 1), (2, 1), (1, 2)].getD r (0, 0)).2 = ⟨1, 0, -1⟩ := by
  interval_cases r <;> exact ⟨by decide, by decide, by decide⟩

/-- Concrete instance of the amended C2 statement at `r = 0`
(the fish moves up, to `(1,0)`). -/
theorem fish_breed_timer_zero_step_witness :
    countType 1 (Update cfg3 1 3 fishGrid0 [0]) = 2 ∧
    getCell (Update cfg3 1 3 fishGrid0 [0]) 1 1 = ⟨1, 0, 5⟩ :=
  ⟨(fish_breed_timer_zero_step 0 (by decide)).1,
   (fish_breed_timer_zero_step 0 (by decide)).2.1⟩

/-! ### Shark starvation (claim C6) -/

/-- C6 fails on the code: in `sharkBugGrid` the shark at `(0,1)` eats the fish
at `(1,1)` first; the energy-1 shark at `(2,1)` then has its predation write
rejected and stays at `(2,1)` with energy `0` — but since `newX, newY` were
not reset, the starvation write empties `(1,1)` instead, killing the *other*
shark: after the step, the starving shark's own cell still holds a shark with
energy `0`, and `(1,1)` is empty. -/
theorem shark_starvation_bug_eval :
    getCell (Update cfg3 1 3 sharkBugGrid [0, 0, 0]) 2 1 = ⟨2, 0, 9⟩ ∧
    (getCell (Update cfg3 1 3 sharkBugGrid [0, 0, 0]) 2 1).typeId ≠ 0 ∧
    getCell (Update cfg3 1 3 sharkBugGrid [0, 0, 0]) 1 1 = ⟨0, 0, 0⟩ := by
  exact ⟨by decide, by decide, by decide⟩

/-! ### Shark predation (claim C5) -/

/-- C5: a shark with energy `E` and at least one adjacent fish in the grid
snapshot attempts to move onto the chosen fish neighbor `c` (the entry of
`GatherFishSquares` selected by the injected `rand.IntN` draw `r`), writing
`Shark{energy = E - 1 + energyGain, breedTimer - 1}` there.  If that predation
write is accepted (and the shark then survives), the write is the shark's
only effect on the buffer — the energy gain is applied at the destination.
If it is rejected, the shark instead writes itself at its original
coordinates with energy `E - 1` (no gain) and decremented breed timer, and
that fallback write is its only effect on the buffer. -/
theorem UpdateSharks_predation
    (cfg : Config) (grid : Grid) (starts : List Nat) (worker x y : Nat)
    (E bt : Int) (fs : List (Nat × Nat)) (r : Nat) (rest : List Nat)
    (c : Nat × Nat) (s : SimState)
    (hcell : getCell grid x y = ⟨2, E, bt⟩)
    (hfs : GatherFishSquares cfg grid x y = fs)
    (hne : fs ≠ [])
    (hc : fs.getD (r % fs.length) (0, 0) = c)
    (hrnd : s.rnd = r :: rest)
    (hbt : 0 < bt) :
    ((SafeWrite c.1 c.2 ⟨2, E - 1 + cfg.energyGain, bt - 1⟩ worker starts s.buf).1 = true →
      0 < E - 1 + cfg.energyGain →
      (UpdateSharks cfg grid starts worker x y s).buf
        = (SafeWrite c.1 c.2 ⟨2, E - 1 + cfg.energyGain, bt - 1⟩ worker starts s.buf).2) ∧
    ((SafeWrite c.1 c.2 ⟨2, E - 1 + cfg.energyGain, bt - 1⟩ worker starts s.buf).1 = false →
      0 < E - 1 →
      (UpdateSharks cfg grid starts worker x y s).buf
        = (SafeWrite x y ⟨2, E - 1, bt - 1⟩ worker starts s.buf).2) := by
  have hlen : 0 < fs.length := List.length_pos.mpr hne
  have hbt' : ¬(bt ≤ 0) := by omega
  constructor
  · intro hacc hE
    have hE' : ¬(E - 1 + cfg.energyGain ≤ 0) := by omega
    simp only [UpdateSharks, SharkMove, SharkFinish, hcell, hfs, hrnd, randIntN,
      SafeWriteT, hc, hlen, gt_iff_lt, if_pos hlen, hacc, if_true]
    simp [hacc, hE', hbt']
  · intro hrej hE
    have hE' : ¬(E - 1 ≤ 0) := by omega
    have hmem : c ∈ fs := by
      rw [← hc, List.getD_eq_getElem fs (0, 0) (Nat.mod_lt r hlen)]
      exact List.getElem_mem _
    have hcfish : (getCell grid c.1 c.2).typeId = 1 :=
      GatherFishSquares_typeId cfg grid x y c (hfs ▸ hmem)
    have hcne : ¬(c.1 = x ∧ c.2 = y) := by
      rintro ⟨h1, h2⟩
      rw [h1, h2, hcell] at hcfish
      simp at hcfish
    have hbuf1 : (SafeWrite c.1 c.2 ⟨2, E - 1 + cfg.energyGain, bt - 1⟩ worker starts s.buf).2
        = s.buf := SafeWrite_false_eq _ _ _ _ _ _ hrej
    have hex : (getCell s.buf c.1 c.2).typeId ≠ 0 ∧ (getCell s.buf c.1 c.2).typeId ≠ 1 := by
      rw [SafeWrite_eq] at hrej
      split at hrej
      next hcond => simp at hrej
      next hcond =>
        push_neg at hcond
        exact ⟨hcond.1, fun h1 => (hcond.2.1 h1) rfl⟩
    have hkeep : getCell (SafeWrite x y ⟨2, E - 1, bt - 1⟩ worker starts s.buf).2 c.1 c.2
        = getCell s.buf c.1 c.2 := by
      rw [SafeWrite_eq]
      split
      · exact getCell_setCell_ne s.buf x y c.1 c.2 _ hcne
      · rfl
    have hdup : SafeWrite c.1 c.2 ⟨2, E - 1, bt - 1⟩ worker starts
        (SafeWrite x y ⟨2, E - 1, bt - 1⟩ worker starts s.buf).2
        = (false, (SafeWrite x y ⟨2, E - 1, bt - 1⟩ worker starts s.buf).2) := by
      rw [SafeWrite_eq, hkeep, if_neg]
      rintro (h0 | ⟨h1, _⟩ | ⟨h2, hz⟩)
      · exact hex.1 h0
      · exact hex.2 h1
      · simp at hz
    simp only [UpdateSharks, SharkMove, SharkFinish, hcell, hfs, hrnd, randIntN,
      SafeWriteT, hc, hlen, gt_iff_lt, if_pos hlen, hrej, hbuf1]
    simp [hrej, hbuf1, hdup, hE', hbt']

/-- 3×3 grid for the C5 witness: a shark at `(1,1)` with energy 5, one fish
neighbor at `(1,0)`. -/
theorem UpdateSharks_predation_witness :
    (UpdateSharks cfg3 (setCell (setCell (zeroBuffer 3 3) 1 1 ⟨2, 5, 10⟩) 1 0 ⟨1, 0, 9⟩)
        [0, 3] 0 1 1 ⟨zeroBuffer 3 3, [0], []⟩).buf
      = (SafeWrite 1 0 ⟨2, 5 - 1 + cfg3.energyGain, 10 - 1⟩ 0 [0, 3] (zeroBuffer 3 3)).2 :=
  (UpdateSharks_predation cfg3
      (setCell (setCell (zeroBuffer 3 3) 1 1 ⟨2, 5, 10⟩) 1 0 ⟨1, 0, 9⟩)
      [0, 3] 0 1 1 5 10
      (GatherFishSquares cfg3 (setCell (setCell (zeroBuffer 3 3) 1 1 ⟨2, 5, 10⟩) 1 0 ⟨1, 0, 9⟩) 1 1)
      0 [] (1, 0) ⟨zeroBuffer 3 3, [0], []⟩
      (by decide) rfl (by decide) (by decide) rfl (by decide)).1
    (by decide) (by decide)

/-! ### Shark breeding (claim C7) -/

/-- C7 fails on the code in the rejected-predation branch: the shark at
`(2,1)` (energy 10, pre-decrement breed timer 0) survives and stays put after
its predation write onto the fish square `(1,1)` is rejected, so its resolved
destination is `(2,1)` — but `newX, newY` still point at the fish square, so
the breed-timer reset write (`⟨2, 9, 10⟩`) is issued at `(1,1)`, no
`sharkBreed`-reset write for the moved shark targets `(2,1)`, and after the
full step the surviving shark's cell keeps `breedTimer = -1` instead of
`sharkBreed`. -/
theorem shark_breed_reset_counterexample :
    (UpdateSharks cfg3 sharkBreedGrid [0, 3] 0 2 1 ⟨sharkBreedBuf, [0], []⟩).trace
      = [(2, 1, ⟨2, 4, 10⟩), (1, 1, ⟨2, 9, 10⟩), (1, 1, ⟨2, 9, -1⟩),
         (2, 1, ⟨2, 9, -1⟩), (1, 1, ⟨2, 11, -1⟩)] ∧
    (∀ p ∈ (UpdateSharks cfg3 sharkBreedGrid [0, 3] 0 2 1 ⟨sharkBreedBuf, [0], []⟩).trace,
      p.1 = 2 ∧ p.2.1 = 1 → p.2.2 ≠ (⟨2, 9, 10⟩ : square)) ∧
    getCell (Update cfg3 1 3 sharkBreedGrid [0, 0, 0]) 2 1 = ⟨2, 9, -1⟩ :=
  ⟨by decide, by decide, by decide⟩

/-- C7 amended: every surviving shark whose pre-decrement breed timer (read
from the grid) is `≤ 0` issues, as its final two writes (the trace is
newest-first), first a write carrying the shark's post-move energy and
`breedTimer = sharkBreed` at the `newX, newY` coordinates left by the
movement phase — the shark's destination for an accepted move and for a stay
through the free-square or no-neighbor branches, but still the *fish square*
in the rejected-predation branch — and then a write placing a fresh shark at
the original coordinates with `energy = starve` (the starvation threshold
constant, not full energy) and `breedTimer = sharkBreed`.  Survival is
guaranteed here by `0 < E - 1` and `0 ≤ energyGain`, which cover every
movement branch; only the trace prefix `a` accumulated before breeding is
existential. -/
theorem UpdateSharks_breeding
    (cfg : Config) (grid : Grid) (starts : List Nat) (worker x y : Nat)
    (E bt : Int) (s : SimState)
    (hcell : getCell grid x y = ⟨2, E, bt⟩)
    (hbt : bt ≤ 0)
    (hE : 0 < E - 1)
    (hg : 0 ≤ cfg.energyGain) :
    ∃ a, (UpdateSharks cfg grid starts worker x y s).trace
      = (x, y, (⟨2, cfg.starve, cfg.sharkBreed⟩ : square))
        :: ((SharkMove cfg grid starts worker x y ⟨2, E, bt⟩ s).1,
            (SharkMove cfg grid starts worker x y ⟨2, E, bt⟩ s).2.1,
            (⟨2, (SharkMove cfg grid starts worker x y ⟨2, E, bt⟩ s).2.2.1,
              cfg.sharkBreed⟩ : square)) :: a := by
  have h1 : ¬(E - 1 ≤ 0) := by omega
  have h2 : ¬(E - 1 + cfg.energyGain ≤ 0) := by omega
  obtain ⟨buf, rnd, trace⟩ := s
  cases rnd with
  | nil =>
    simp [UpdateSharks, SharkMove, SharkFinish, hcell, randIntN, SafeWriteT, h1, h2, hbt]
    repeat' split
    all_goals exact ⟨_, rfl⟩
  | cons r rest =>
    simp [UpdateSharks, SharkMove, SharkFinish, hcell, randIntN, SafeWriteT, h1, h2, hbt]
    repeat' split
    all_goals exact ⟨_, rfl⟩

/-- Concrete instance of the amended C7 statement: a lone shark at `(1,1)`
with energy 5 and breed timer 0 moves (to `(1,0)`, = `SharkMove`'s
`newX, newY`), and issues the reset write there and the fresh-shark write
(`energy = starve = 4`, `breedTimer = sharkBreed = 10`) at `(1,1)`. -/
theorem UpdateSharks_breeding_witness :
    ∃ a, (UpdateSharks cfg3 (setCell (zeroBuffer 3 3) 1 1 ⟨2, 5, 0⟩)
        [0, 3] 0 1 1 ⟨zeroBuffer 3 3, [0], []⟩).trace
      = (1, 1, (⟨2, cfg3.starve, cfg3.sharkBreed⟩ : square))
        :: ((SharkMove cfg3 (setCell (zeroBuffer 3 3) 1 1 ⟨2, 5, 0⟩)
              [0, 3] 0 1 1 ⟨2, 5, 0⟩ ⟨zeroBuffer 3 3, [0], []⟩).1,
            (SharkMove cfg3 (setCell (zeroBuffer 3 3) 1 1 ⟨2, 5, 0⟩)
              [0, 3] 0 1 1 ⟨2, 5, 0⟩ ⟨zeroBuffer 3 3, [0], []⟩).2.1,
            (⟨2, (SharkMove cfg3 (setCell (zeroBuffer 3 3) 1 1 ⟨2, 5, 0⟩)
              [0, 3] 0 1 1 ⟨2, 5, 0⟩ ⟨zeroBuffer 3 3, [0], []⟩).2.2.1,
              cfg3.sharkBreed⟩ : square)) :: a :=
  UpdateSharks_breeding cfg3 (setCell (zeroBuffer 3 3) 1 1 ⟨2, 5, 0⟩) [0, 3] 0 1 1
    5 0 ⟨zeroBuffer 3 3, [0], []⟩ (by decide) (by decide) (by decide) (by decide)

/-! ### The tile partitioner (claims C3, C9) -/

/-- Adjacent monotonicity of a boundary list extends to any in-range pair. -/
theorem getD_mono_of_adj (starts : List Nat)
    (hmono : ∀ j, j < starts.length - 1 → starts.getD j 0 ≤ starts.getD (j + 1) 0) :
    ∀ a b, a ≤ b → b < starts.length → starts.getD a 0 ≤ starts.getD b 0 := by
  intro a b hab hb
  induction b with
  | zero =>
    have ha : a = 0 := Nat.le_zero.mp hab
    simp [ha]
  | succ k ih =>
    rcases Nat.lt_or_ge a (k + 1) with h | h
    · exact le_trans (ih (by omega) (by omega)) (hmono k (by omega))
    · have : a = k + 1 := by omega
      simp [this]

/-- The scan loop of `TileOfX` returns the first index whose interval
contains `x`. -/
theorem TileOfXGo_found (x : Nat) (starts : List Nat) :
    ∀ fuel i target, i ≤ target → target < i + fuel →
      (starts.getD target 0 ≤ x ∧ x < starts.getD (target + 1) 0) →
      (∀ j, i ≤ j → j < target →
        ¬(starts.getD j 0 ≤ x ∧ x < starts.getD (j + 1) 0)) →
      TileOfXGo x starts fuel i = target := by
  intro fuel
  induction fuel with
  | zero => intro i target h1 h2 _ _; omega
  | succ n ih =>
    intro i target h1 h2 hp hmiss
    simp only [TileOfXGo]
    rcases Nat.eq_or_lt_of_le h1 with heq | hlt
    · subst heq; rw [if_pos hp]
    · rw [if_neg (hmiss i le_rfl hlt)]
      exact ih (i + 1) target hlt (by omega) hp (fun j hj1 hj2 => hmiss j (by omega) hj2)

/-- When no interval up to the fuel bound contains `x`, the scan loop falls
through to `len(starts) - 1`. -/
theorem TileOfXGo_exhaust (x : Nat) (starts : List Nat) :
    ∀ fuel i, (∀ j, i ≤ j → j < i + fuel →
        ¬(starts.getD j 0 ≤ x ∧ x < starts.getD (j + 1) 0)) →
      TileOfXGo x starts fuel i = starts.length - 1 := by
  intro fuel
  induction fuel with
  | zero => intro i _; rfl
  | succ n ih =>
    intro i h
    simp only [TileOfXGo]
    rw [if_neg (h i le_rfl (by omega))]
    exact ih (i + 1) (fun j hj1 hj2 => h j (by omega) (by omega))

/-- C3 amended: on a boundary list with non-decreasing boundaries, `TileOfX`
returns the unique `i` with `starts[i] <= x < starts[i+1]`; for `x` at or past
the final boundary it falls through to `len(starts) - 1`, which for a list of
`numTiles + 1` boundaries is `numTiles` — one *past* the last tile index, not
`numTiles - 1` as the claim states. -/
theorem TileOfX_unique_interval (x : Nat) (starts : List Nat)
    (hmono : ∀ j, j < starts.length - 1 → starts.getD j 0 ≤ starts.getD (j + 1) 0) :
    (∀ i, i + 1 < starts.length → starts.getD i 0 ≤ x → x < starts.getD (i + 1) 0 →
      TileOfX x starts = i) ∧
    (starts.getD (starts.length - 1) 0 ≤ x →
      TileOfX x starts = starts.length - 1) := by
  have mono2 := getD_mono_of_adj starts hmono
  constructor
  · intro i hi hlo hhi
    apply TileOfXGo_found x starts (starts.length - 1) 0 i (Nat.zero_le i) (by omega) ⟨hlo, hhi⟩
    rintro j _ hji ⟨hjlo, hjhi⟩
    have hle : starts.getD (j + 1) 0 ≤ starts.getD i 0 := mono2 (j + 1) i (by omega) (by omega)
    omega
  · intro hlast
    apply TileOfXGo_exhaust
    rintro j _ hjlt ⟨hjlo, hjhi⟩
    have hle : starts.getD (j + 1) 0 ≤ starts.getD (starts.length - 1) 0 :=
      mono2 (j + 1) (starts.length - 1) (by omega) (by omega)
    omega

/-- Concrete instance of the amended C3 statement: with the program's
boundary list, column 300 lies on tile 1, and a column at the final boundary
falls through to index 8 (= `len(starts) - 1`). -/
theorem TileOfX_unique_interval_witness :
    TileOfX 300 startsC = 1 ∧ TileOfX 1800 startsC = startsC.length - 1 :=
  ⟨(TileOfX_unique_interval 300 startsC (by decide)).1 1 (by decide) (by decide) (by decide),
   (TileOfX_unique_interval 1800 startsC (by decide)).2 (by decide)⟩

/-- C3 fails on the code for the defensive fallback: for `x` at or past the
final boundary, `TileOfX` returns `len(starts) - 1 = numTiles` (here 8), not
the last tile index `numTiles - 1` (here 7). -/
theorem TileOfX_fallback_counterexample :
    TileOfX 1800 startsC = threadsC ∧ TileOfX 1800 startsC ≠ threadsC - 1 :=
  ⟨by decide, by decide⟩

/-- Length of the boundary-building loop's output. -/
theorem GetTileStartsGo_length (tw rem n : Nat) :
    ∀ fuel i p, (GetTileStartsGo tw rem n fuel i p).length = fuel + 1 := by
  intro fuel
  induction fuel with
  | zero => intro i p; rfl
  | succ k ih => intro i p; simp only [GetTileStartsGo, List.length_cons, ih]

/-- Before the last tile, each boundary advances by exactly the (global)
`tileWidth`. -/
theorem GetTileStartsGo_getD_lt (tw rem n : Nat) :
    ∀ fuel i p j, j < fuel → i + fuel = n →
      (GetTileStartsGo tw rem n fuel i p).getD j 0 = p + j * tw := by
  intro fuel
  induction fuel with
  | zero => intro i p j h _; omega
  | succ k ih =>
    intro i p j hj hn
    match j with
    | 0 => simp [GetTileStartsGo]
    | j' + 1 =>
      have hik : ¬(i = n - 1) := by omega
      simp only [GetTileStartsGo, List.getD_cons_succ]
      rw [if_neg hik, ih (i + 1) (p + tw) j' (by omega) (by omega)]
      ring

/-- The final boundary additionally absorbs the remainder. -/
theorem GetTileStartsGo_getD_last (tw rem n : Nat) :
    ∀ fuel i p, 1 ≤ fuel → i + fuel = n →
      (GetTileStartsGo tw rem n fuel i p).getD fuel 0 = p + fuel * tw + rem := by
  intro fuel
  induction fuel with
  | zero => intro i p h _; omega
  | succ k ih =>
    intro i p _ hn
    simp only [GetTileStartsGo, List.getD_cons_succ]
    by_cases hk : k = 0
    · subst hk
      have hi : i = n - 1 := by omega
      rw [if_pos hi]
      simp [GetTileStartsGo]
      ring
    · have hik : ¬(i = n - 1) := by omega
      rw [if_neg hik, ih (i + 1) (p + tw) (by omega) (by omega)]
      ring

/-- C9 amended: `GetTileStarts` uses the package-global `tileWidth` (passed
here explicitly), *not* `W div numTiles` recomputed from its argument: for any
`numTiles >= 1` it returns `numTiles + 1` ordered boundaries with boundary
`i = i * tileWidth` for `i < numTiles` and final boundary
`numTiles * tileWidth + W mod numTiles`.  Only when `tileWidth = W div numTiles`
(in the source: when `numTiles` equals the configured thread count, 8) does
the final boundary equal `W` as the claim states. -/
theorem GetTileStarts_boundaries (width tileWidth n : Nat) (hn : 1 ≤ n) :
    (GetTileStarts width tileWidth n).length = n + 1 ∧
    (∀ i, i < n → (GetTileStarts width tileWidth n).getD i 0 = i * tileWidth) ∧
    (GetTileStarts width tileWidth n).getD n 0 = n * tileWidth + width % n ∧
    (tileWidth = width / n → (GetTileStarts width tileWidth n).getD n 0 = width) := by
  have hlast : (GetTileStarts width tileWidth n).getD n 0 = n * tileWidth + width % n := by
    have h := GetTileStartsGo_getD_last tileWidth (width % n) n n 0 0 hn (by omega)
    simpa [GetTileStarts] using h
  refine ⟨GetTileStartsGo_length tileWidth (width % n) n n 0 0, ?_, hlast, ?_⟩
  · intro i hi
    have h := GetTileStartsGo_getD_lt tileWidth (width % n) n n 0 0 i hi (by omega)
    simpa [GetTileStarts] using h
  · intro htw
    rw [hlast, htw, Nat.div_add_mod]

/-- Concrete instance of the amended C9 statement at the configured thread
count: the 8-tile boundary list ends exactly at `W = 1800`. -/
theorem GetTileStarts_boundaries_witness :
    (GetTileStarts 1800 (1800 / 8) 8).getD 8 0 = 1800 :=
  (GetTileStarts_boundaries 1800 (1800 / 8) 8 (by decide)).2.2.2 rfl

/-- C9 fails on the code away from the configured thread count: with the
source globals (`width = 1800`, `tileWidth = 225`), `GetTileStarts 2` yields
boundary 1 = 225 (the claim demands `1 * (W div 2) = 900`) and final boundary
450 (the claim demands `W = 1800`). -/
theorem GetTileStarts_counterexample :
    (GetTileStarts widthC tileWidthC 2).getD 1 0 = 225 ∧
    (GetTileStarts widthC tileWidthC 2).getD 1 0 ≠ 1 * (widthC / 2) ∧
    (GetTileStarts widthC tileWidthC 2).getD 2 0 ≠ widthC :=
  ⟨by decide, by decide, by decide⟩

/-! ### Conservation (claim C8) -/

/-- `setCell` preserves the grid shape. -/
theorem Shaped_setCell (W H x y : Nat) (sq : square) (g : Grid)
    (h : Shaped W H g) : Shaped W H (setCell g x y sq) := by
  obtain ⟨hlen, hrow⟩ := h
  unfold setCell
  refine ⟨by simpa using hlen, ?_⟩
  intro row hmem
  by_cases hx : x < g.length
  · rcases List.mem_or_eq_of_mem_set hmem with hm | he
    · exact hrow row hm
    · subst he
      have hgx : g.getD x [] ∈ g := by
        rw [List.getD_eq_getElem g [] hx]; exact List.getElem_mem hx
      rw [List.length_set]
      exact hrow _ hgx
  · rw [List.set_eq_of_length_le (by omega)] at hmem
    exact hrow row hmem

/-- `setCell` with a well-typed cell preserves well-typedness. -/
theorem WellTyped_setCell (x y : Nat) (sq : square) (g : Grid)
    (hsq : sq.typeId = 0 ∨ sq.typeId = 1 ∨ sq.typeId = 2)
    (h : WellTyped g) : WellTyped (setCell g x y sq) := by
  intro row hmem sq' hsqmem
  unfold setCell at hmem
  rcases List.mem_or_eq_of_mem_set hmem with hm | he
  · exact h row hm sq' hsqmem
  · subst he
    rcases List.mem_or_eq_of_mem_set hsqmem with hm2 | he2
    · by_cases hx : x < g.length
      · have hgx : g.getD x [] ∈ g := by
          rw [List.getD_eq_getElem g [] hx]; exact List.getElem_mem hx
        exact h _ hgx sq' hm2
      · rw [List.getD_eq_getElem?_getD, List.getElem?_eq_none (by omega)] at hm2
        simp at hm2
    · subst he2; exact hsq

/-- `SafeWrite` with a well-typed incoming cell preserves shape and
well-typedness of the buffer. -/
theorem SafeWrite_inv (W H x y : Nat) (sq : square) (w : Nat) (st : List Nat)
    (buf : Grid)
    (hsq : sq.typeId = 0 ∨ sq.typeId = 1 ∨ sq.typeId = 2)
    (h : Shaped W H buf ∧ WellTyped buf) :
    Shaped W H (SafeWrite x y sq w st buf).2 ∧ WellTyped (SafeWrite x y sq w st buf).2 := by
  rw [SafeWrite_eq]
  split
  · exact ⟨Shaped_setCell W H x y sq buf h.1, WellTyped_setCell x y sq buf hsq h.2⟩
  · exact h

/-- Fold preservation for the worker/cell loops. -/
theorem foldl_preserve {α : Type} (P : SimState → Prop) (f : SimState → α → SimState)
    (l : List α) (s : SimState) (hf : ∀ s a, P s → P (f s a)) (h : P s) :
    P (l.foldl f s) := by
  induction l generalizing s with
  | nil => exact h
  | cons a l ih => exact ih (f s a) (hf s a h)

/-- `UpdateFish` only writes fish cells, preserving shape and well-typedness. -/
theorem UpdateFish_inv (cfg : Config) (grid : Grid) (starts : List Nat)
    (worker x y : Nat) (s : SimState)
    (h : Shaped cfg.width cfg.height s.buf ∧ WellTyped s.buf) :
    Shaped cfg.width cfg.height (UpdateFish cfg grid starts worker x y s).buf ∧
      WellTyped (UpdateFish cfg grid starts worker x y s).buf := by
  obtain ⟨buf, rnd, trace⟩ := s
  simp only at h
  cases rnd with
  | nil =>
    simp only [UpdateFish, SafeWriteT, randIntN]
    repeat' split
    all_goals
      repeat
        first
        | exact h
        | apply SafeWrite_inv _ _ _ _ _ _ _ _ (by simp)
  | cons r rest =>
    simp only [UpdateFish, SafeWriteT, randIntN]
    repeat' split
    all_goals
      repeat
        first
        | exact h
        | apply SafeWrite_inv _ _ _ _ _ _ _ _ (by simp)

/-- The shark movement phase preserves shape and well-typedness. -/
theorem SharkMove_inv (cfg : Config) (grid : Grid) (starts : List Nat)
    (worker x y : Nat) (cs : square) (s : SimState)
    (h : Shaped cfg.width cfg.height s.buf ∧ WellTyped s.buf) :
    Shaped cfg.width cfg.height (SharkMove cfg grid starts worker x y cs s).2.2.2.2.buf ∧
      WellTyped (SharkMove cfg grid starts worker x y cs s).2.2.2.2.buf := by
  obtain ⟨buf, rnd, trace⟩ := s
  simp only at h
  cases rnd with
  | nil =>
    simp only [SharkMove, SafeWriteT, randIntN]
    repeat' split
    all_goals
      repeat
        first
        | exact h
        | apply SafeWrite_inv _ _ _ _ _ _ _ _ (by simp)
  | cons r rest =>
    simp only [SharkMove, SafeWriteT, randIntN]
    repeat' split
    all_goals
      repeat
        first
        | exact h
        | apply SafeWrite_inv _ _ _ _ _ _ _ _ (by simp)

/-- The shark post-move phase preserves shape and well-typedness. -/
theorem SharkFinish_inv (cfg : Config) (starts : List Nat)
    (worker x y : Nat) (cs : square) (t : Nat × Nat × Int × Bool × SimState)
    (h : Shaped cfg.width cfg.height t.2.2.2.2.buf ∧ WellTyped t.2.2.2.2.buf) :
    Shaped cfg.width cfg.height (SharkFinish cfg starts worker x y cs t).buf ∧
      WellTyped (SharkFinish cfg starts worker x y cs t).buf := by
  obtain ⟨nx, ny, e, m, s1⟩ := t
  simp only at h
  simp only [SharkFinish, SafeWriteT]
  repeat' split
  all_goals
    repeat
      first
      | exact h
      | apply SafeWrite_inv _ _ _ _ _ _ _ _ (by simp)

/-- `UpdateSharks` only writes shark or empty cells, preserving shape and
well-typedness. -/
theorem UpdateSharks_inv (cfg : Config) (grid : Grid) (starts : List Nat)
    (worker x y : Nat) (s : SimState)
    (h : Shaped cfg.width cfg.height s.buf ∧ WellTyped s.buf) :
    Shaped cfg.width cfg.height (UpdateSharks cfg grid starts worker x y s).buf ∧
      WellTyped (UpdateSharks cfg grid starts worker x y s).buf := by
  simp only [UpdateSharks]
  split
  · exact h
  · exact SharkFinish_inv cfg starts worker x y _ _
      (SharkMove_inv cfg grid starts worker x y _ s h)

/-- A worker's tile scan preserves shape and well-typedness of the buffer. -/
theorem ConcurrentUpdate_inv (cfg : Config) (grid : Grid) (starts : List Nat)
    (worker startX endX : Nat) (s : SimState)
    (h : Shaped cfg.width cfg.height s.buf ∧ WellTyped s.buf) :
    Shaped cfg.width cfg.height (ConcurrentUpdate cfg grid starts worker startX endX s).buf ∧
      WellTyped (ConcurrentUpdate cfg grid starts worker startX endX s).buf := by
  unfold ConcurrentUpdate
  apply foldl_preserve
    (fun st => Shaped cfg.width cfg.height st.buf ∧ WellTyped st.buf) _ _ _ ?_ h
  intro s1 x1 h1
  apply foldl_preserve
    (fun st => Shaped cfg.width cfg.height st.buf ∧ WellTyped st.buf) _ _ _ ?_ h1
  intro s2 y2 h2
  split
  · exact UpdateFish_inv cfg grid starts worker x1 y2 s2 h2
  · split
    · exact UpdateSharks_inv cfg grid starts worker x1 y2 s2 h2
    · exact h2

/-- The all-Empty buffer is shaped and well-typed. -/
theorem zeroBuffer_inv (W H : Nat) :
    Shaped W H (zeroBuffer W H) ∧ WellTyped (zeroBuffer W H) := by
  unfold zeroBuffer
  refine ⟨⟨List.length_replicate _ _, ?_⟩, ?_⟩
  · intro row hr
    rw [List.eq_of_mem_replicate hr]
    exact List.length_replicate _ _
  · intro row hr sq hs
    rw [List.eq_of_mem_replicate hr] at hs
    rw [List.eq_of_mem_replicate hs]
    exact Or.inl rfl

/-- One full step yields a shaped, well-typed grid. -/
theorem Update_inv (cfg : Config) (threads tileWidth : Nat) (grid : Grid)
    (rnd : List Nat) :
    Shaped cfg.width cfg.height (Update cfg threads tileWidth grid rnd) ∧
      WellTyped (Update cfg threads tileWidth grid rnd) := by
  unfold Update
  apply foldl_preserve
    (fun st => Shaped cfg.width cfg.height st.buf ∧ WellTyped st.buf) _ _ _ ?_ ?_
  · intro s w hw
    exact ConcurrentUpdate_inv cfg grid _ w _ _ s hw
  · exact zeroBuffer_inv cfg.width cfg.height

/-- Partition count for one row of well-typed cells. -/
theorem countP_partition (l : List square)
    (h : ∀ sq ∈ l, sq.typeId = 0 ∨ sq.typeId = 1 ∨ sq.typeId = 2) :
    l.countP (fun sq => sq.typeId == 1) + l.countP (fun sq => sq.typeId == 2)
      + l.countP (fun sq => sq.typeId == 0) = l.length := by
  induction l with
  | nil => rfl
  | cons a l ih =>
    have ha := h a (List.mem_cons_self a l)
    have ihh := ih (fun sq hs => h sq (List.mem_cons_of_mem a hs))
    simp only [List.countP_cons, List.length_cons]
    rcases ha with h' | h' | h' <;> simp [h'] <;> omega

/-- Partition count for a whole well-typed grid with uniform row length. -/
theorem countType_partition (H : Nat) (g : Grid)
    (hrow : ∀ row ∈ g, row.length = H) (hwt : WellTyped g) :
    countType 1 g + countType 2 g + countType 0 g = g.length * H := by
  induction g with
  | nil => simp [countType]
  | cons row g ih =>
    have h1 := countP_partition row (hwt row (List.mem_cons_self row g))
    have h2 := ih (fun r hr => hrow r (List.mem_cons_of_mem row hr))
      (fun r hr => hwt r (List.mem_cons_of_mem row hr))
    simp only [countType, List.map_cons, List.sum_cons] at h2 ⊢
    rw [hrow row (List.mem_cons_self row g)] at h1
    rw [List.length_cons, Nat.succ_mul]
    omega

/-- C8: after every step, each cell's `typeId` is one of 0, 1, 2 (Empty,
Fish, Shark), and `count(Fish) + count(Shark) + count(Empty) = W*H` — for
*every* input grid and entropy stream, hence for every reachable state. -/
theorem Update_conservation (cfg : Config) (threads tileWidth : Nat)
    (grid : Grid) (rnd : List Nat) :
    WellTyped (Update cfg threads tileWidth grid rnd) ∧
    countType 1 (Update cfg threads tileWidth grid rnd)
      + countType 2 (Update cfg threads tileWidth grid rnd)
      + countType 0 (Update cfg threads tileWidth grid rnd)
      = cfg.width * cfg.height := by
  obtain ⟨⟨hlen, hrows⟩, hwt⟩ := Update_inv cfg threads tileWidth grid rnd
  refine ⟨hwt, ?_⟩
  rw [countType_partition cfg.height _ hrows hwt, hlen]

/-! ### Initialization (claim C4) -/

/-- Reading back an in-range cell just written. -/
theorem getCell_setCell_self (W H : Nat) (g : Grid) (x y : Nat) (sq : square)
    (hsh : Shaped W H g) (hx : x < W) (hy : y < H) :
    getCell (setCell g x y sq) x y = sq := by
  obtain ⟨hlen, hrow⟩ := hsh
  have hxl : x < g.length := by omega
  have hyl : y < (getElem g x hxl).length := by
    rw [hrow _ (List.getElem_mem hxl)]; omega
  unfold getCell setCell
  simp only [List.getD_eq_getElem?_getD]
  rw [List.getElem?_set_self', List.getElem?_eq_getElem hxl]
  simp only [Option.map_eq_map, Option.map_some', Option.getD_some, Function.const_apply]
  rw [List.getElem?_set_self', List.getElem?_eq_getElem hyl]
  rfl

/-- Every cell of the zero buffer is the zero square. -/
theorem zeroBuffer_getCell (W H a b : Nat) :
    getCell (zeroBuffer W H) a b = zeroSquare := by
  unfold getCell zeroBuffer
  simp only [List.getD_eq_getElem?_getD, List.getElem?_replicate]
  split_ifs
  · simp [List.getElem?_replicate]
    split_ifs <;> rfl
  · rfl

/-- The fish placement loop aborts (models the Go index-out-of-range panic)
as soon as an index at or past the end of the coordinate list is reached. -/
theorem placeFishLoop_none (cfg : Config) (coords : List (Nat × Nat)) :
    ∀ count i g, 0 < count → coords.length < i + count →
      placeFishLoop cfg coords i count g = none := by
  intro count
  induction count with
  | zero => intro i g h; omega
  | succ c ih =>
    intro i g _ hlt
    simp only [placeFishLoop]
    cases hg : coords.get? i with
    | none => rfl
    | some cc =>
      have hi : ¬coords.length ≤ i := fun hh => by
        rw [List.get?_eq_none.mpr hh] at hg; exact Option.noConfusion hg
      rcases Nat.eq_zero_or_pos c with hc | hc
      · exfalso; omega
      · exact ih (i + 1) _ hc (by omega)

/-- Same for the shark placement loop. -/
theorem placeSharkLoop_none (cfg : Config) (coords : List (Nat × Nat)) :
    ∀ count i g, 0 < count → coords.length < i + count →
      placeSharkLoop cfg coords i count g = none := by
  intro count
  induction count with
  | zero => intro i g h; omega
  | succ c ih =>
    intro i g _ hlt
    simp only [placeSharkLoop]
    cases hg : coords.get? i with
    | none => rfl
    | some cc =>
      have hi : ¬coords.length ≤ i := fun hh => by
        rw [List.get?_eq_none.mpr hh] at hg; exact Option.noConfusion hg
      rcases Nat.eq_zero_or_pos c with hc | hc
      · exfalso; omega
      · exact ih (i + 1) _ hc (by omega)

/-- Full characterization of a successful fish placement run: it succeeds
when the index range fits, leaves every unvisited cell alone, and turns each
visited cell (visited exactly once) into a fish with `breedTimer = fishBreed`,
preserving its other fields. -/
theorem placeFishLoop_spec (cfg : Config) (W H : Nat) (coords : List (Nat × Nat))
    (hrange : ∀ c ∈ coords, c.1 < W ∧ c.2 < H) :
    ∀ count i g, Shaped W H g → i + count ≤ coords.length →
      ∃ g2, placeFishLoop cfg coords i count g = some g2 ∧ Shaped W H g2 ∧
        (∀ a b, (∀ k, i ≤ k → k < i + count → coords.get? k ≠ some (a, b)) →
          getCell g2 a b = getCell g a b) ∧
        (∀ k a b, i ≤ k → k < i + count → coords.get? k = some (a, b) →
          (∀ k2, i ≤ k2 → k2 < i + count → k2 ≠ k → coords.get? k2 ≠ some (a, b)) →
          getCell g2 a b
            = { getCell g a b with typeId := 1, breedTimer := cfg.fishBreed }) := by
  intro count
  induction count with
  | zero =>
    intro i g hsh _
    exact ⟨g, rfl, hsh, fun a b _ => rfl,
      fun k a b hk1 hk2 _ _ => absurd hk2 (by omega)⟩
  | succ c ih =>
    intro i g hsh hle
    have hi : i < coords.length := by omega
    obtain ⟨ci, hci⟩ : ∃ ci, coords.get? i = some ci :=
      ⟨coords.get ⟨i, hi⟩, List.get?_eq_get hi⟩
    have hcr := hrange ci (List.get?_mem hci)
    obtain ⟨g2, hrun, hsh2, hunw, hwr⟩ := ih (i + 1)
      (setCell g ci.1 ci.2 { getCell g ci.1 ci.2 with typeId := 1, breedTimer := cfg.fishBreed })
      (Shaped_setCell W H ci.1 ci.2 _ g hsh) (by omega)
    refine ⟨g2, ?_, hsh2, ?_, ?_⟩
    · simp only [placeFishLoop, hci]
      exact hrun
    · intro a b hmiss
      rw [hunw a b (fun k hk1 hk2 => hmiss k (by omega) (by omega))]
      refine getCell_setCell_ne g ci.1 ci.2 a b _ ?_
      rintro ⟨ha, hb⟩
      exact hmiss i le_rfl (by omega)
        (by rw [hci]; exact congrArg some (by rw [ha, hb]))
    · intro k a b hk1 hk2 hkv huniq
      rcases Nat.eq_or_lt_of_le hk1 with heq | hlt
      · subst heq
        have hab : ci = (a, b) := by rw [hci] at hkv; exact Option.some_inj.mp hkv
        subst hab
        rw [hunw a b (fun k2 hk21 hk22 =>
          huniq k2 (by omega) (by omega) (by omega))]
        exact getCell_setCell_self W H g a b _ hsh hcr.1 hcr.2
      · have hne : ¬(a = ci.1 ∧ b = ci.2) := by
          rintro ⟨ha, hb⟩
          exact huniq i le_rfl (by omega) (by omega)
            (by rw [hci]; exact congrArg some (by rw [ha, hb]))
        have hkeep : getCell
            (setCell g ci.1 ci.2 { getCell g ci.1 ci.2 with typeId := 1, breedTimer := cfg.fishBreed })
            a b = getCell g a b := getCell_setCell_ne g ci.1 ci.2 a b _ hne
        rw [hwr k a b (by omega) (by omega) hkv
          (fun k2 hk21 hk22 hk2ne => huniq k2 (by omega) (by omega) hk2ne), hkeep]

/-- Full characterization of a successful shark placement run: each visited
cell becomes a shark with `energy = starve` and `breedTimer = sharkBreed`. -/
theorem placeSharkLoop_spec (cfg : Config) (W H : Nat) (coords : List (Nat × Nat))
    (hrange : ∀ c ∈ coords, c.1 < W ∧ c.2 < H) :
    ∀ count i g, Shaped W H g → i + count ≤ coords.length →
      ∃ g2, placeSharkLoop cfg coords i count g = some g2 ∧ Shaped W H g2 ∧
        (∀ a b, (∀ k, i ≤ k → k < i + count → coords.get? k ≠ some (a, b)) →
          getCell g2 a b = getCell g a b) ∧
        (∀ k a b, i ≤ k → k < i + count → coords.get? k = some (a, b) →
          (∀ k2, i ≤ k2 → k2 < i + count → k2 ≠ k → coords.get? k2 ≠ some (a, b)) →
          getCell g2 a b = ⟨2, cfg.starve, cfg.sharkBreed⟩) := by
  intro count
  induction count with
  | zero =>
    intro i g hsh _
    exact ⟨g, rfl, hsh, fun a b _ => rfl,
      fun k a b hk1 hk2 _ _ => absurd hk2 (by omega)⟩
  | succ c ih =>
    intro i g hsh hle
    have hi : i < coords.length := by omega
    obtain ⟨ci, hci⟩ : ∃ ci, coords.get? i = some ci :=
      ⟨coords.get ⟨i, hi⟩, List.get?_eq_get hi⟩
    have hcr := hrange ci (List.get?_mem hci)
    obtain ⟨g2, hrun, hsh2, hunw, hwr⟩ := ih (i + 1)
      (setCell g ci.1 ci.2
        { getCell g ci.1 ci.2 with typeId := 2, breedTimer := cfg.sharkBreed, energy := cfg.starve })
      (Shaped_setCell W H ci.1 ci.2 _ g hsh) (by omega)
    refine ⟨g2, ?_, hsh2, ?_, ?_⟩
    · simp only [placeSharkLoop, hci]
      exact hrun
    · intro a b hmiss
      rw [hunw a b (fun k hk1 hk2 => hmiss k (by omega) (by omega))]
      refine getCell_setCell_ne g ci.1 ci.2 a b _ ?_
      rintro ⟨ha, hb⟩
      exact hmiss i le_rfl (by omega)
        (by rw [hci]; exact congrArg some (by rw [ha, hb]))
    · intro k a b hk1 hk2 hkv huniq
      rcases Nat.eq_or_lt_of_le hk1 with heq | hlt
      · subst heq
        have hab : ci = (a, b) := by rw [hci] at hkv; exact Option.some_inj.mp hkv
        subst hab
        rw [hunw a b (fun k2 hk21 hk22 =>
          huniq k2 (by omega) (by omega) (by omega))]
        exact getCell_setCell_self W H g a b _ hsh hcr.1 hcr.2
      · have hne : ¬(a = ci.1 ∧ b = ci.2) := by
          rintro ⟨ha, hb⟩
          exact huniq i le_rfl (by omega) (by omega)
            (by rw [hci]; exact congrArg some (by rw [ha, hb]))
        have hkeep : getCell
            (setCell g ci.1 ci.2
              { getCell g ci.1 ci.2 with typeId := 2, breedTimer := cfg.sharkBreed, energy := cfg.starve })
            a b = getCell g a b := getCell_setCell_ne g ci.1 ci.2 a b _ hne
        rw [hwr k a b (by omega) (by omega) hkv
          (fun k2 hk21 hk22 hk2ne => huniq k2 (by omega) (by omega) hk2ne)]

/-- `allCoords` has exactly `W*H` entries. -/
theorem allCoords_length (W H : Nat) : (allCoords W H).length = W * H := by
  show ((List.range W) ×ˢ (List.range H)).length = W * H
  rw [List.length_product, List.length_range, List.length_range]

/-- `allCoords` has no duplicates. -/
theorem allCoords_nodup (W H : Nat) : (allCoords W H).Nodup :=
  (List.nodup_range W).product (List.nodup_range H)

/-- Membership in `allCoords` is exactly in-range coordinates. -/
theorem allCoords_mem (W H a b : Nat) : (a, b) ∈ allCoords W H ↔ a < W ∧ b < H := by
  show (a, b) ∈ (List.range W) ×ˢ (List.range H) ↔ _
  rw [List.mem_product, List.mem_range, List.mem_range]

/-- C4: with the shuffle modelled as an arbitrary permutation `coords` of all
`W*H` coordinates, initialization fails — the Go code performs no explicit
check, but indexing `coords[i]` past the end aborts (a panic raised before
`ebiten.Run` starts any step), modelled as `none` — exactly when
`numFish + numShark > W*H`.  Otherwise it succeeds, placing fish
(`breedTimer = fishBreed`) on the first `numFish` shuffled coordinates and
sharks (`breedTimer = sharkBreed`, `energy = starve`) on the next `numShark`
— pairwise-distinct cells, since the shuffled list has no duplicates — and
leaving every other cell Empty. -/
theorem RunConcurrentInit_spec (cfg : Config) (coords : List (Nat × Nat))
    (numFish numShark : Nat)
    (hperm : List.Perm coords (allCoords cfg.width cfg.height)) :
    (cfg.width * cfg.height < numFish + numShark →
      RunConcurrentInit cfg coords numFish numShark = none) ∧
    (numFish + numShark ≤ cfg.width * cfg.height →
      ∃ g, RunConcurrentInit cfg coords numFish numShark = some g ∧
        (coords.take (numFish + numShark)).Nodup ∧
        (∀ k a b, k < numFish → coords.get? k = some (a, b) →
          getCell g a b = ⟨1, 0, cfg.fishBreed⟩) ∧
        (∀ k a b, numFish ≤ k → k < numFish + numShark → coords.get? k = some (a, b) →
          getCell g a b = ⟨2, cfg.starve, cfg.sharkBreed⟩) ∧
        (∀ a b, (∀ k, k < numFish + numShark → coords.get? k ≠ some (a, b)) →
          getCell g a b = zeroSquare)) := by
  have hlen : coords.length = cfg.width * cfg.height :=
    hperm.length_eq.trans (allCoords_length cfg.width cfg.height)
  have hnodup : coords.Nodup :=
    hperm.nodup_iff.mpr (allCoords_nodup cfg.width cfg.height)
  have hrange : ∀ c ∈ coords, c.1 < cfg.width ∧ c.2 < cfg.height := by
    intro c hc
    have : c ∈ allCoords cfg.width cfg.height := hperm.mem_iff.mp hc
    exact (allCoords_mem cfg.width cfg.height c.1 c.2).mp this
  have huni : ∀ i j v, coords.get? i = some v → coords.get? j = some v → i = j := by
    intro i j v hi hj
    have h0 : i < coords.length := by
      by_contra hc
      rw [List.get?_eq_none.mpr (by omega)] at hi
      exact Option.noConfusion hi
    rw [List.get?_eq_getElem?] at hi hj
    exact List.getElem?_inj h0 hnodup (hi.trans hj.symm)
  constructor
  · intro hover
    unfold RunConcurrentInit
    by_cases hf : coords.length < numFish
    · rw [placeFishLoop_none cfg coords numFish 0 _ (by omega) (by omega)]
    · obtain ⟨g1, hg1, _, _, _⟩ := placeFishLoop_spec cfg cfg.width cfg.height coords hrange
        numFish 0 (zeroBuffer cfg.width cfg.height)
        (zeroBuffer_inv cfg.width cfg.height).1 (by omega)
      rw [hg1]
      exact placeSharkLoop_none cfg coords numShark numFish g1 (by omega) (by omega)
  · intro hle
    obtain ⟨g1, hg1, hsh1, hunw1, hwr1⟩ := placeFishLoop_spec cfg cfg.width cfg.height coords
      hrange numFish 0 (zeroBuffer cfg.width cfg.height)
      (zeroBuffer_inv cfg.width cfg.height).1 (by omega)
    obtain ⟨g2, hg2, hsh2, hunw2, hwr2⟩ := placeSharkLoop_spec cfg cfg.width cfg.height coords
      hrange numShark numFish g1 hsh1 (by omega)
    refine ⟨g2, ?_, (List.take_sublist _ _).nodup hnodup, ?_, ?_, ?_⟩
    · unfold RunConcurrentInit
      rw [hg1]
      exact hg2
    · intro k a b hk hkv
      rw [hunw2 a b (fun k2 hk21 hk22 hk2v => by
          have := huni k2 k (a, b) hk2v hkv; omega),
        hwr1 k a b (by omega) (by omega) hkv (fun k2 _ _ hk2ne hk2v =>
          hk2ne (huni k2 k (a, b) hk2v hkv)),
        zeroBuffer_getCell]
      rfl
    · intro k a b hk1 hk2 hkv
      rw [hwr2 k a b hk1 hk2 hkv (fun k2 _ _ hk2ne hk2v =>
        hk2ne (huni k2 k (a, b) hk2v hkv))]
    · intro a b hmiss
      rw [hunw2 a b (fun k hk1 hk2 => hmiss k (by omega)),
        hunw1 a b (fun k hk1 hk2 => hmiss k (by omega)),
        zeroBuffer_getCell]

/-- Concrete instance of C4 on a 2×1 grid: 1 fish + 2 sharks overflows and
aborts; 1 fish + 1 shark succeeds with the fish placed on the first shuffled
coordinate. -/
theorem RunConcurrentInit_spec_witness :
    RunConcurrentInit ⟨2, 1, 5, 10, 4, 2⟩ (allCoords 2 1) 1 2 = none ∧
    ∃ g, RunConcurrentInit ⟨2, 1, 5, 10, 4, 2⟩ (allCoords 2 1) 1 1 = some g ∧
      getCell g 0 0 = ⟨1, 0, 5⟩ := by
  constructor
  · exact (RunConcurrentInit_spec ⟨2, 1, 5, 10, 4, 2⟩ (allCoords 2 1) 1 2
      (List.Perm.refl _)).1 (by decide)
  · obtain ⟨g, hg, _, hfish, _, _⟩ :=
      (RunConcurrentInit_spec ⟨2, 1, 5, 10, 4, 2⟩ (allCoords 2 1) 1 1
        (List.Perm.refl _)).2 (by decide)
    exact ⟨g, hg, hfish 0 0 0 (by decide) (by decide)⟩

end Wator
